import Mathlib

/-!
Verification of the lookup-orchestration core of the enhanced dictionary
API (ECDICT-based service with an Oxford EN-EN supplement, lazily loaded
bidirectional local dictionaries, a Redis cache and a remote fallback).

The development shallowly embeds the TypeScript source:
  - the unified response model (src/core/types.ts),
  - the cache service (src/core/cache.ts: makeCacheKey, getCached, setCached),
  - the request handler of src/routes/dictionary.ts,
  - the provider registry (src/providers/base.ts),
  - the lazy local-dictionary manager (src/providers/lazy-local-dicts.ts).

Machine integers of the source are JavaScript numbers used as integer
timestamps and counters; they are modelled as Int and Nat.  Redis is
modelled as an insertion-ordered association list of typed entries with
an optional absolute expiry time in seconds; SETEX with t seconds at
server time nowS stores expiry nowS + t and TTL reports expiry - nowS
(and -1 for a key without expiry, -2 for a missing key).  JSON
serialization is the identity on this typed store.  Asynchronous calls
are sequentialized exactly as the await points order them.
-/

-- ============================================================================
-- Unified response model (src/core/types.ts)
-- ============================================================================

structure Phonetics where
  uk : String
  us : String
deriving DecidableEq, Repr

structure AudioUrls where
  uk : String
  us : String
deriving DecidableEq, Repr

structure Translation where
  pos : String
  meanings : List String
deriving DecidableEq, Repr

/-- Definition of src/core/types.ts; the source field name example is a
Lean keyword, so an underscore is appended. -/
structure Definition where
  partOfSpeech : String
  definition : String
  example_ : String
  synonyms : List String
  antonyms : List String
deriving DecidableEq, Repr

/-- WordForms of src/core/types.ts; the source field name lemma is a Lean
keyword, so an underscore is appended. -/
structure WordForms where
  past : String
  pastParticiple : String
  presentParticiple : String
  thirdPerson : String
  plural : String
  comparative : String
  superlative : String
  lemma_ : String
deriving DecidableEq, Repr

structure Frequency where
  collins : Int
  oxford : Int
  bnc : Int
  frq : Int
  tag : List String
deriving DecidableEq, Repr

/-- The DataSource union of the source is a set of string literals; the
`source` field is modelled as a plain String, matching the string
comparisons performed by the code. -/
structure DictionaryResponse where
  word : String
  phonetics : Phonetics
  audio : AudioUrls
  translations : List Translation
  definitions : List Definition
  exchange : WordForms
  frequency : Frequency
  source : String
  cached : Bool
  detailUrl : String
deriving DecidableEq, Repr

/-- createEmptyResponse of src/core/types.ts (percent-encoding of the word
in the display link is not modelled; no claim concerns detailUrl). -/
def createEmptyResponse (word : String) : DictionaryResponse :=
  { word := word
    phonetics := { uk := "", us := "" }
    audio := { uk := "", us := "" }
    translations := []
    definitions := []
    exchange :=
      { past := "", pastParticiple := "", presentParticiple := ""
        thirdPerson := "", plural := "", comparative := ""
        superlative := "", lemma_ := "" }
    frequency := { collins := 0, oxford := 0, bnc := 0, frq := 0, tag := [] }
    source := "unknown"
    cached := false
    detailUrl := "https://dict.eudic.net/dicts/en/" ++ word }

-- ============================================================================
-- Insertion-ordered map (JavaScript Map / Redis keyspace)
-- ============================================================================

/-- Lookup in an insertion-ordered association list (JavaScript Map.get,
Redis GET).  Keys of a Map are unique, so the first match is the match. -/
def mapGet {α : Type} : List (String × α) → String → Option α
  | [], _ => none
  | kv :: tl, k => if kv.1 = k then some kv.2 else mapGet tl k

/-- JavaScript Map.set and Redis SET: overwrite in place when the key is
present, append otherwise. -/
def mapSet {α : Type} : List (String × α) → String → α → List (String × α)
  | [], k, v => [(k, v)]
  | kv :: tl, k, v => if kv.1 = k then (k, v) :: tl else kv :: mapSet tl k v

/-- JavaScript Map.delete and Redis DEL. -/
def mapDel {α : Type} (m : List (String × α)) (k : String) :
    List (String × α) :=
  m.filter (fun kv => ¬ kv.1 = k)

-- ============================================================================
-- Cache service (src/core/cache.ts)
-- ============================================================================

/-- CacheEntry of src/core/cache.ts. -/
structure CacheEntry (T : Type) where
  data : T
  hit_count : Nat
  created_at : Int
  last_hit_at : Int
deriving DecidableEq, Repr

/-- CacheStats of src/core/cache.ts (hit_count and age_days are optional
fields of the interface). -/
structure CacheStats where
  hit : Bool
  hit_count : Option Nat
  age_days : Option Int
deriving DecidableEq, Repr

/-- The non-null result shape of getCached. -/
structure CacheHit where
  data : DictionaryResponse
  stats : CacheStats
deriving DecidableEq, Repr

/-- A value stored under a Redis key: the deserialized cache entry plus
the absolute expiry time in seconds (none models a key without expiry). -/
structure StoredEntry where
  entry : CacheEntry DictionaryResponse
  expiry : Option Int
deriving DecidableEq, Repr

/-- The connected Redis client: its status string and its keyspace. -/
structure RedisState where
  status : String
  store : List (String × StoredEntry)
deriving DecidableEq, Repr

/-- getRedis() returns null before initialization: the client is an
Option. -/
def CacheBackend : Type := Option RedisState

/-- makeCacheKey of src/core/cache.ts. -/
def makeCacheKey (word language : String) : String :=
  "dict:" ++ language ++ ":" ++ word.toLower

/-- Redis TTL for a key that GET just returned: seconds remaining, or -1
for a key without expiry. -/
def ttlOf (expiry : Option Int) (nowS : Int) : Int :=
  match expiry with
  | none => -1
  | some e => e - nowS

/-- getCached of src/core/cache.ts.  nowMs is Date.now() of the process,
nowS the Redis server clock in seconds.  Returns the result together with
the backend state after the hit-count write-back. -/
def getCached (st : Option RedisState) (word language : String)
    (nowMs nowS : Int) : Option CacheHit × Option RedisState :=
  match st with
  | none => (none, st)
  | some r =>
    if r.status ≠ "ready" then (none, st)
    else
      match mapGet r.store (makeCacheKey word language) with
      | none => (none, st)
      | some se =>
        let entry2 : CacheEntry DictionaryResponse :=
          { se.entry with hit_count := se.entry.hit_count + 1, last_hit_at := nowMs }
        let ttl : Int := ttlOf se.expiry nowS
        let store2 : List (String × StoredEntry) :=
          if 0 < ttl then
            mapSet r.store (makeCacheKey word language)
              { entry := entry2, expiry := some (nowS + ttl) }
          else r.store
        let ageDays : Int := Int.fdiv (nowMs - se.entry.created_at) (1000 * 60 * 60 * 24)
        (some { data := se.entry.data
                stats := { hit := true, hit_count := some entry2.hit_count
                           age_days := some ageDays } },
         some { r with store := store2 })

/-- setCached of src/core/cache.ts.  ttlDays is the value resolved by
getCacheTTLDays() (runtime control key with static default). -/
def setCached (st : Option RedisState) (word language : String)
    (data : DictionaryResponse) (source : String)
    (nowMs nowS ttlDays : Int) : Bool × Option RedisState :=
  if source = "ecdict" then (false, st)
  else
    match st with
    | none => (false, st)
    | some r =>
      if r.status ≠ "ready" then (false, st)
      else
        let entry : CacheEntry DictionaryResponse :=
          { data := data, hit_count := 0, created_at := nowMs, last_hit_at := nowMs }
        let store2 := mapSet r.store (makeCacheKey word language)
          { entry := entry, expiry := some (nowS + ttlDays * 24 * 60 * 60) }
        (true, some { r with store := store2 })

-- ============================================================================
-- Request handler (src/routes/dictionary.ts)
-- ============================================================================

/-- The provider environment seen by the route handler.  Each field is
the result of queryProvider for the given provider: none collapses the
not-registered, unavailable, unsupported-language, miss, error and
invalid-result cases, exactly the cases in which queryProvider returns
null; some r is a valid hit. -/
structure Env where
  ecdict : String → Option DictionaryResponse
  oxford : String → Option DictionaryResponse
  google : String → String → Option DictionaryResponse
  lazyLocal : String → String → Option DictionaryResponse
  disableLocalDicts : Bool

/-- The GET entries/:language/:word handler of src/routes/dictionary.ts,
threaded through the cache backend state.  A none result is the 404
not-found body.  The touch of the lazy manager on a local hit mutates
manager state only and is modelled with the manager below. -/
def handleRequest (env : Env) (word language : String)
    (st : Option RedisState) (nowMs nowS ttlDays : Int) :
    Option DictionaryResponse × Option RedisState :=
  match getCached st word language nowMs nowS with
  | (some hit, st1) =>
    (some { hit.data with cached := true, source := "cache" }, st1)
  | (none, st1) =>
    if env.disableLocalDicts then
      match env.google word language with
      | some g => (some g, (setCached st1 word language g g.source nowMs nowS ttlDays).2)
      | none => (none, st1)
    else if language = "en" then
      match env.ecdict word with
      | some base =>
        match env.oxford word with
        | some ox =>
          if ox.definitions.length ≠ 0 then
            (some { base with definitions := ox.definitions, source := "ecdict+oxford" }, st1)
          else (some base, st1)
        | none => (some base, st1)
      | none =>
        match env.oxford word with
        | some ox => (some ox, st1)
        | none =>
          match env.google word language with
          | some g => (some g, (setCached st1 word language g g.source nowMs nowS ttlDays).2)
          | none => (none, st1)
    else
      match env.lazyLocal language word with
      | some localHit => (some localHit, st1)
      | none =>
        match env.google word language with
        | some g => (some g, (setCached st1 word language g g.source nowMs nowS ttlDays).2)
        | none => (none, st1)

-- ============================================================================
-- Provider registry (src/providers/base.ts)
-- ============================================================================

/-- A registered provider as the registry observes it: its name key and
the value its isAvailable() reports.  Availability is fixed per snapshot;
the registry itself never mutates it. -/
structure Provider where
  name : String
  available : Bool
deriving DecidableEq, Repr

/-- ProviderRegistry state: the by-name Map and the priority-sorted
array. -/
structure Registry where
  providers : List (String × Provider)
  priorityOrder : List (Provider × Int)
deriving DecidableEq, Repr

def emptyRegistry : Registry := { providers := [], priorityOrder := [] }

/-- The comparator of priorityOrder.sort((a, b) => b.priority - a.priority):
descending priority; ECMAScript sort is stable, so the model is a stable
merge sort under this ordering. -/
def byPriorityDesc (a b : Provider × Int) : Bool := b.2 ≤ a.2

/-- ProviderRegistry.register: set the by-name Map entry, push onto the
priority array and re-sort it (stable, descending priority).  The push
does not remove an earlier entry carrying the same name. -/
def Registry.register (reg : Registry) (p : Provider) (priority : Int) : Registry :=
  { providers := mapSet reg.providers p.name p
    priorityOrder := (reg.priorityOrder ++ [(p, priority)]).mergeSort byPriorityDesc }

/-- ProviderRegistry.unregister: close the provider, drop it from the Map
and filter it out of the priority array; false when the name is absent. -/
def Registry.unregister (reg : Registry) (name : String) : Bool × Registry :=
  match mapGet reg.providers name with
  | none => (false, reg)
  | some _ =>
    (true,
      { providers := mapDel reg.providers name
        priorityOrder := reg.priorityOrder.filter (fun pp => ¬ pp.1.name = name) })

/-- ProviderRegistry.get. -/
def Registry.get (reg : Registry) (name : String) : Option Provider :=
  mapGet reg.providers name

/-- ProviderRegistry.getAll. -/
def Registry.getAll (reg : Registry) : List Provider :=
  reg.priorityOrder.map (fun pp => pp.1)

/-- ProviderRegistry.getAvailable. -/
def Registry.getAvailable (reg : Registry) : List Provider :=
  (reg.priorityOrder.filter (fun pp => pp.1.available)).map (fun pp => pp.1)

-- ============================================================================
-- Lazy local-dictionary manager (src/providers/lazy-local-dicts.ts)
-- ============================================================================

/-- LazyLocalDictDescriptor. -/
structure LazyDescriptor where
  name : String
  displayName : String
  supportedLanguages : List String
  dbPath : String
  priority : Int
deriving DecidableEq, Repr

/-- RuntimeState of one managed provider.  releaseTimer holds the
absolute fire deadline of the armed timeout, none when no timer is
armed. -/
structure RuntimeState where
  descriptor : LazyDescriptor
  loaded : Bool
  lastUsedAt : Int
  releaseTimer : Option Int
deriving DecidableEq, Repr

/-- scheduleRelease: clear any armed timer and arm a fresh one firing
idleReleaseMs from now (the single timer slot makes the clearTimeout
implicit). -/
def scheduleRelease (s : RuntimeState) (now idleReleaseMs : Int) : RuntimeState :=
  if ¬ s.loaded then s
  else { s with releaseTimer := some (now + idleReleaseMs) }

/-- touch: no-op unless loaded; stamp lastUsedAt and re-arm the idle
timer via scheduleRelease. -/
def touch (s : RuntimeState) (now idleReleaseMs : Int) : RuntimeState :=
  if ¬ s.loaded then s
  else scheduleRelease { s with lastUsedAt := now } now idleReleaseMs

/-- The body of the setTimeout callback armed by scheduleRelease, run at
time now: skip when no longer loaded; when the recomputed idle duration
is still below threshold, reschedule; otherwise unregister from the
registry (closing the provider) and mark the state unloaded. -/
def onTimerFire (s : RuntimeState) (reg : Registry) (now idleReleaseMs : Int) :
    RuntimeState × Registry :=
  if ¬ s.loaded then (s, reg)
  else if now - s.lastUsedAt < idleReleaseMs then
    (scheduleRelease s now idleReleaseMs, reg)
  else
    ({ s with loaded := false, releaseTimer := none },
     (reg.unregister s.descriptor.name).2)

/-- loadProvider: the construction outcome of createSqliteDictProvider is
none when the constructor throws, and some avail when it completes with
isAvailable() = avail.  An unavailable provider is closed immediately and
the state marked unloaded; on success the provider is registered at the
descriptor priority, the state marked loaded, lastUsedAt stamped and the
idle timer armed. -/
def loadProvider (s : RuntimeState) (reg : Registry) (outcome : Option Bool)
    (now idleReleaseMs : Int) : Bool × RuntimeState × Registry :=
  match outcome with
  | none => (false, { s with loaded := false }, reg)
  | some avail =>
    if ¬ avail then (false, { s with loaded := false }, reg)
    else
      let p : Provider := { name := s.descriptor.name, available := true }
      let reg2 := reg.register p s.descriptor.priority
      let s2 := scheduleRelease { s with loaded := true, lastUsedAt := now } now idleReleaseMs
      (true, s2, reg2)

/-- Registry availability test performed by ensureProvider:
registry.get(name) and optional-chained isAvailable(). -/
def registryAvailable (reg : Registry) (name : String) : Bool :=
  match reg.get name with
  | some p => p.available
  | none => false

/-- What a call to ensureProvider does first, mirroring its branching:
reuse the loaded and still-available provider (touch, return true), await
an existing in-flight load, or start a fresh load. -/
inductive EnsureAction where
  | reuse
  | awaitInFlight
  | startLoad
  | missing
deriving DecidableEq, Repr

/-- The branch ensureProvider takes, given the managed state for the
name (none when the name is not managed), the registry and whether
loadLocks holds an in-flight load for the name. -/
def ensureAction (s : Option RuntimeState) (reg : Registry) (lockHeld : Bool) :
    EnsureAction :=
  match s with
  | none => .missing
  | some st =>
    if st.loaded && registryAvailable reg st.descriptor.name then .reuse
    else if lockHeld then .awaitInFlight
    else .startLoad

-- ============================================================================
-- Single-flight load coordination (ensureProvider lock discipline)
-- ============================================================================

/-- The lock cell of loadLocks for one fixed provider name (entries for
distinct names are independent map entries), together with the history
the proofs count: load constructions are numbered in start order, started
is the number of constructions begun, settledCount the number whose
promise has settled, and awaits records, per call that reached the lock
logic, which load promise that call awaits. -/
structure FlightState where
  lock : Option Nat
  started : Nat
  settledCount : Nat
  awaits : List (Nat × Nat)
deriving DecidableEq, Repr

def initialFlight : FlightState :=
  { lock := none, started := 0, settledCount := 0, awaits := [] }

/-- The atomic transitions of ensureProvider for one name.  JavaScript
runs the check of loadLocks.get and the subsequent loadLocks.set without
an intervening await, so check-and-set is a single transition. -/
inductive SFStep : FlightState → FlightState → Prop
  | reuse (s : FlightState) :
      SFStep s s
  | join (s : FlightState) (caller loadId : Nat)
      (h : s.lock = some loadId) :
      SFStep s { s with awaits := (caller, loadId) :: s.awaits }
  | start (s : FlightState) (caller : Nat)
      (h : s.lock = none) :
      SFStep s { s with lock := some s.started, started := s.started + 1,
                        awaits := (caller, s.started) :: s.awaits }
  | settle (s : FlightState) (loadId : Nat) (ok : Bool)
      (h : s.lock = some loadId) :
      SFStep s { s with lock := none, settledCount := s.settledCount + 1 }

/-- States reachable from the initial lock state. -/
def FlightReachable (s : FlightState) : Prop :=
  Relation.ReflTransGen SFStep initialFlight s

-- ============================================================================
-- Concrete sample data used by the witnesses
-- ============================================================================

/-- An ECDICT hit for hello: Chinese translations, no English definitions,
source tag ecdict (ECDictProvider.transformRecord). -/
def sampleBase : DictionaryResponse :=
  { createEmptyResponse "hello" with
      translations := [{ pos := "int", meanings := ["喂", "哈罗"] }]
      source := "ecdict" }

/-- An Oxford EN-EN hit for hello with one definition. -/
def sampleOx : DictionaryResponse :=
  { createEmptyResponse "hello" with
      definitions := [{ partOfSpeech := "exclamation"
                        definition := "used as a greeting"
                        example_ := "hello there"
                        synonyms := [], antonyms := [] }]
      source := "oxford_en_mac" }

/-- A fallback hit produced by the remote provider. -/
def sampleGoogle : DictionaryResponse :=
  { createEmptyResponse "serendipity" with
      definitions := [{ partOfSpeech := "noun"
                        definition := "finding pleasant things by chance"
                        example_ := "", synonyms := [], antonyms := [] }]
      source := "google" }

/-- Environment in which both local English providers hit for hello. -/
def sampleEnv : Env :=
  { ecdict := fun w => if w = "hello" then some sampleBase else none
    oxford := fun w => if w = "hello" then some sampleOx else none
    google := fun _ _ => none
    lazyLocal := fun _ _ => none
    disableLocalDicts := false }

/-- Environment in which only the primary local dictionary hits. -/
def sampleEnvNoOx : Env :=
  { ecdict := fun w => if w = "hello" then some sampleBase else none
    oxford := fun _ => none
    google := fun _ _ => none
    lazyLocal := fun _ _ => none
    disableLocalDicts := false }

/-- A cache entry already holding the hello response. -/
def sampleEntry : CacheEntry DictionaryResponse :=
  { data := sampleBase, hit_count := 2, created_at := 5, last_hit_at := 5 }

/-- A ready backend holding sampleEntry with an absolute expiry. -/
def sampleReadyR : RedisState :=
  { status := "ready"
    store := [(makeCacheKey "hello" "en",
               { entry := sampleEntry, expiry := some 1000 })] }

/-- A ready backend holding sampleEntry under a key without expiry. -/
def sampleNoExpiryR : RedisState :=
  { status := "ready"
    store := [(makeCacheKey "hello" "en",
               { entry := sampleEntry, expiry := none })] }

/-- A ready, empty backend. -/
def sampleEmptyR : RedisState := { status := "ready", store := [] }

/-- A loaded managed provider with its idle timer armed at deadline 10
(armed at time 0 with a 10 ms idle-release window). -/
def sampleLoadedState : RuntimeState :=
  { descriptor := { name := "koen_mac", displayName := "KO-EN"
                    supportedLanguages := ["ko"], dbPath := "/data/koen.db"
                    priority := 5 }
    loaded := true
    lastUsedAt := 0
    releaseTimer := some 10 }

/-- The registry holding the provider managed by sampleLoadedState. -/
def sampleRegWithKoen : Registry :=
  Registry.register emptyRegistry { name := "koen_mac", available := true } 5

/-- The lock state after one ensureProvider call started the first load. -/
def flightAfterStart : FlightState :=
  { lock := some 0, started := 1, settledCount := 0, awaits := [(0, 0)] }

-- ============================================================================
-- Helper lemmas
-- ============================================================================

theorem mapGet_mapSet_self {α : Type} (m : List (String × α)) (k : String) (v : α) :
    mapGet (mapSet m k v) k = some v := by
  induction m with
  | nil => simp [mapGet, mapSet]
  | cons hd tl ih =>
    by_cases hk : hd.1 = k
    · simp [mapGet, mapSet, hk]
    · simp [mapGet, mapSet, hk, ih]

theorem mapGet_mapDel_self {α : Type} (m : List (String × α)) (k : String) :
    mapGet (mapDel m k) k = none := by
  induction m with
  | nil => simp [mapGet, mapDel]
  | cons hd tl ih =>
    by_cases hk : hd.1 = k
    · simpa [mapDel, hk] using ih
    · simpa [mapDel, mapGet, hk] using ih

/-- Every miss path of getCached leaves the backend untouched. -/
theorem getCached_miss_state (st : Option RedisState) (w l : String)
    (nowMs nowS : Int) (h : (getCached st w l nowMs nowS).1 = none) :
    (getCached st w l nowMs nowS).2 = st := by
  cases st with
  | none => rfl
  | some r =>
    by_cases hs : r.status ≠ "ready"
    · simp [getCached, hs]
    · cases hk : mapGet r.store (makeCacheKey w l) with
      | none => simp [getCached, hs, hk]
      | some se => simp [getCached, hs, hk] at h

/-- A getCached miss does not depend on the clocks. -/
theorem getCached_miss_time (st : Option RedisState) (w l : String)
    (nowMs nowS nowMs2 nowS2 : Int)
    (h : (getCached st w l nowMs nowS).1 = none) :
    (getCached st w l nowMs2 nowS2).1 = none := by
  cases st with
  | none => rfl
  | some r =>
    by_cases hs : r.status ≠ "ready"
    · simp [getCached, hs]
    · cases hk : mapGet r.store (makeCacheKey w l) with
      | none => simp [getCached, hs, hk]
      | some se => simp [getCached, hs, hk] at h

-- ============================================================================
-- Claim theorems
-- ============================================================================

/-- C4: on a read hit over an entry with a strictly positive remaining
TTL, getCached increments hit_count, stamps last_hit_at, rewrites the
entry under the same absolute expiry time (reads never extend the
expiry), and returns the hit with the incremented hit_count and
age_days equal to the floor of (now - created_at) / 86400000. -/
theorem cache_ttl_preserved_on_hit
    (r : RedisState) (w l : String) (nowMs nowS : Int)
    (entry : CacheEntry DictionaryResponse) (e : Int)
    (hready : r.status = "ready")
    (hstore : mapGet r.store (makeCacheKey w l) = some ⟨entry, some e⟩)
    (hpos : 0 < e - nowS) :
    getCached (some r) w l nowMs nowS =
      (some ⟨entry.data,
        ⟨true, some (entry.hit_count + 1),
         some (Int.fdiv (nowMs - entry.created_at) (1000 * 60 * 60 * 24))⟩⟩,
       some { r with
                store := mapSet r.store (makeCacheKey w l)
                           ⟨{ entry with hit_count := entry.hit_count + 1, last_hit_at := nowMs }, some e⟩ }) := by
  simp only [getCached, hready, hstore, ttlOf]
  have he : nowS + (e - nowS) = e := by omega
  simp [hpos, he]

/-- Witness for C4 at a concrete ready backend, key and clocks. -/
theorem cache_ttl_preserved_on_hit_witness :
    getCached (some sampleReadyR) "hello" "en" 259200005 400 =
      (some ⟨sampleEntry.data,
        ⟨true, some (sampleEntry.hit_count + 1),
         some (Int.fdiv (259200005 - sampleEntry.created_at) (1000 * 60 * 60 * 24))⟩⟩,
       some { sampleReadyR with
                store := mapSet sampleReadyR.store (makeCacheKey "hello" "en")
                           ⟨{ sampleEntry with hit_count := sampleEntry.hit_count + 1, last_hit_at := 259200005 }, some 1000⟩ }) :=
  cache_ttl_preserved_on_hit sampleReadyR "hello" "en" 259200005 400 sampleEntry 1000
    rfl (by simp [sampleReadyR, mapGet]) (by decide)

/-- C9: getCached persists the incremented statistics only when the
backend reports a strictly positive remaining TTL; when the TTL query is
zero or negative (for example -1 for a key without expiry), the hit
result still carries the incremented hit_count but nothing is written
back, leaving the stored entry unchanged. -/
theorem hit_writeback_guarded_by_ttl
    (r : RedisState) (w l : String) (nowMs nowS : Int)
    (entry : CacheEntry DictionaryResponse) (expOpt : Option Int)
    (hready : r.status = "ready")
    (hstore : mapGet r.store (makeCacheKey w l) = some ⟨entry, expOpt⟩)
    (hnp : ttlOf expOpt nowS ≤ 0) :
    getCached (some r) w l nowMs nowS =
      (some ⟨entry.data,
        ⟨true, some (entry.hit_count + 1),
         some (Int.fdiv (nowMs - entry.created_at) (1000 * 60 * 60 * 24))⟩⟩,
       some r) := by
  obtain ⟨rs, rstore⟩ := r
  simp only at hready
  subst hready
  have hlt : ¬ (0 < ttlOf expOpt nowS) := by omega
  simp [getCached, hstore, hlt]

/-- Witness for C9 at a concrete key stored without an expiry. -/
theorem hit_writeback_guarded_by_ttl_witness :
    getCached (some sampleNoExpiryR) "hello" "en" 259200005 400 =
      (some ⟨sampleEntry.data,
        ⟨true, some (sampleEntry.hit_count + 1),
         some (Int.fdiv (259200005 - sampleEntry.created_at) (1000 * 60 * 60 * 24))⟩⟩,
       some sampleNoExpiryR) :=
  hit_writeback_guarded_by_ttl sampleNoExpiryR "hello" "en" 259200005 400 sampleEntry none
    rfl (by simp [sampleNoExpiryR, mapGet]) (by decide)

/-- C10: the cache-skip predicate of setCached is an exact comparison
with the string ecdict; for every other source value (the composite
merge tag and the supplementary tags included) a ready backend gets a
fresh entry with hit_count zero and created_at and last_hit_at stamped
now, stored under the resolved TTL in days, and setCached returns
true. -/
theorem setCached_skip_exact_ecdict_only
    (r : RedisState) (w l : String) (d : DictionaryResponse) (src : String)
    (nowMs nowS ttlDays : Int)
    (hsrc : src ≠ "ecdict") (hready : r.status = "ready") :
    setCached (some r) w l d src nowMs nowS ttlDays =
      (true, some { r with
                      store := mapSet r.store (makeCacheKey w l)
                                 ⟨⟨d, 0, nowMs, nowMs⟩,
                                  some (nowS + ttlDays * 24 * 60 * 60)⟩ }) := by
  simp [setCached, hsrc, hready]

/-- Witness for C10 with the composite merge tag as the source. -/
theorem setCached_skip_exact_ecdict_only_witness :
    setCached (some sampleEmptyR) "hello" "en" sampleBase "ecdict+oxford" 7 3 30 =
      (true, some { sampleEmptyR with
                      store := mapSet sampleEmptyR.store (makeCacheKey "hello" "en")
                                 ⟨⟨sampleBase, 0, 7, 7⟩,
                                  some (3 + 30 * 24 * 60 * 60)⟩ }) :=
  setCached_skip_exact_ecdict_only sampleEmptyR "hello" "en" sampleBase "ecdict+oxford" 7 3 30
    (by decide) rfl

/-- C3: setCached refuses to cache and leaves the backend untouched
whenever the source is the primary local tag ecdict; consequently a
request answered by the primary local dictionary on a cold cache
returns the identical response on an immediate repeat and never creates
a cache entry (the handler does not even attempt a write on the local
branch). -/
theorem ecdict_cache_exemption :
    (∀ (st : Option RedisState) (w l : String) (d : DictionaryResponse)
       (nowMs nowS ttlDays : Int),
       setCached st w l d "ecdict" nowMs nowS ttlDays = (false, st)) ∧
    (∀ (env : Env) (word : String) (st : Option RedisState)
       (nowMs nowS ttlDays nowMs2 nowS2 ttlDays2 : Int) (base : DictionaryResponse),
       (getCached st word "en" nowMs nowS).1 = none →
       env.disableLocalDicts = false →
       env.ecdict word = some base →
       base.source = "ecdict" →
       env.oxford word = none →
       handleRequest env word "en" st nowMs nowS ttlDays = (some base, st) ∧
       handleRequest env word "en" st nowMs2 nowS2 ttlDays2 = (some base, st)) := by
  constructor
  · intro st w l d nowMs nowS ttlDays
    simp [setCached]
  · intro env word st nowMs nowS ttlDays nowMs2 nowS2 ttlDays2 base
      hmiss hlocal hbase hsrc hox
    have hmiss2 : (getCached st word "en" nowMs2 nowS2).1 = none :=
      getCached_miss_time st word "en" nowMs nowS nowMs2 nowS2 hmiss
    have hst : (getCached st word "en" nowMs nowS).2 = st :=
      getCached_miss_state st word "en" nowMs nowS hmiss
    have hst2 : (getCached st word "en" nowMs2 nowS2).2 = st :=
      getCached_miss_state st word "en" nowMs2 nowS2 hmiss2
    have hp : getCached st word "en" nowMs nowS = (none, st) := Prod.ext hmiss hst
    have hp2 : getCached st word "en" nowMs2 nowS2 = (none, st) := Prod.ext hmiss2 hst2
    constructor
    · simp [handleRequest, hp, hlocal, hbase, hox]
    · simp [handleRequest, hp2, hlocal, hbase, hox]

/-- Witness for C3: the hello request served by the primary local
dictionary against a null backend, repeated at different clocks. -/
theorem ecdict_cache_exemption_witness :
    setCached (some sampleEmptyR) "hello" "en" sampleBase "ecdict" 1 1 30 =
      (false, some sampleEmptyR) ∧
    handleRequest sampleEnvNoOx "hello" "en" none 0 0 30 = (some sampleBase, none) ∧
    handleRequest sampleEnvNoOx "hello" "en" none 99 77 7 = (some sampleBase, none) := by
  refine ⟨ecdict_cache_exemption.1 (some sampleEmptyR) "hello" "en" sampleBase 1 1 30, ?_, ?_⟩
  · exact (ecdict_cache_exemption.2 sampleEnvNoOx "hello" none 0 0 30 99 77 7 sampleBase
      rfl rfl (by simp [sampleEnvNoOx]) rfl rfl).1
  · exact (ecdict_cache_exemption.2 sampleEnvNoOx "hello" none 0 0 30 99 77 7 sampleBase
      rfl rfl (by simp [sampleEnvNoOx]) rfl rfl).2

/-- C1: on an en-request cache miss with local dictionaries enabled,
when the primary local dictionary yields a valid hit, the handler
returns that hit; if the supplementary hit exists and carries at least
one definition, the definitions of the returned response are replaced by
the supplementary ones and the source becomes the composite tag, with
translations, exchange and frequency unchanged from the primary hit;
when the supplementary hit is absent or has empty definitions, the
primary hit is returned unchanged under its plain ecdict tag. -/
theorem english_merge_rule
    (env : Env) (word : String) (st : Option RedisState)
    (nowMs nowS ttlDays : Int) (base : DictionaryResponse)
    (hmiss : (getCached st word "en" nowMs nowS).1 = none)
    (hlocal : env.disableLocalDicts = false)
    (hbase : env.ecdict word = some base)
    (hsrc : base.source = "ecdict") :
    (∀ ox : DictionaryResponse, env.oxford word = some ox → ox.definitions ≠ [] →
      handleRequest env word "en" st nowMs nowS ttlDays =
        (some { base with definitions := ox.definitions, source := "ecdict+oxford" }, st) ∧
      ({ base with definitions := ox.definitions, source := "ecdict+oxford" } : DictionaryResponse).translations = base.translations ∧
      ({ base with definitions := ox.definitions, source := "ecdict+oxford" } : DictionaryResponse).exchange = base.exchange ∧
      ({ base with definitions := ox.definitions, source := "ecdict+oxford" } : DictionaryResponse).frequency = base.frequency) ∧
    (env.oxford word = none →
      handleRequest env word "en" st nowMs nowS ttlDays = (some base, st) ∧
      base.source = "ecdict") ∧
    (∀ ox : DictionaryResponse, env.oxford word = some ox → ox.definitions = [] →
      handleRequest env word "en" st nowMs nowS ttlDays = (some base, st) ∧
      base.source = "ecdict") := by
  have hst : (getCached st word "en" nowMs nowS).2 = st :=
    getCached_miss_state st word "en" nowMs nowS hmiss
  have hp : getCached st word "en" nowMs nowS = (none, st) := Prod.ext hmiss hst
  refine ⟨?_, ?_, ?_⟩
  · intro ox hox hne
    have hlen : ox.definitions.length ≠ 0 := by
      simpa [List.length_eq_zero] using hne
    exact ⟨by simp [handleRequest, hp, hlocal, hbase, hox, hlen], rfl, rfl, rfl⟩
  · intro hox
    exact ⟨by simp [handleRequest, hp, hlocal, hbase, hox], hsrc⟩
  · intro ox hox hempty
    exact ⟨by simp [handleRequest, hp, hlocal, hbase, hox, hempty], hsrc⟩

/-- Witness for C1: hello carried by both local dictionaries, and by the
primary alone, against a null backend. -/
theorem english_merge_rule_witness :
    handleRequest sampleEnv "hello" "en" none 0 0 30 =
      (some { sampleBase with definitions := sampleOx.definitions, source := "ecdict+oxford" }, none) ∧
    handleRequest sampleEnvNoOx "hello" "en" none 0 0 30 = (some sampleBase, none) := by
  constructor
  · exact ((english_merge_rule sampleEnv "hello" none 0 0 30 sampleBase
      rfl rfl (by simp [sampleEnv]) rfl).1 sampleOx (by simp [sampleEnv])
      (by simp [sampleOx])).1
  · exact ((english_merge_rule sampleEnvNoOx "hello" none 0 0 30 sampleBase
      rfl rfl (by simp [sampleEnvNoOx]) rfl).2.1 rfl).1

/-- C5: after setCached successfully writes a payload for a key, any
request for that (word, language) that hits the cache returns
immediately with cached forced to true and source forced to cache,
independently of every provider (no provider is consulted and no merge
applies), and the returned payload is the most recently written one,
differing only in the two forced fields. -/
theorem cache_hit_forced_and_round_trip
    (r : RedisState) (w l : String) (d : DictionaryResponse) (src : String)
    (nowMs nowS ttlDays : Int)
    (hsrc : src ≠ "ecdict") (hready : r.status = "ready") :
    (setCached (some r) w l d src nowMs nowS ttlDays).1 = true ∧
    (∀ (env : Env) (nowMs2 nowS2 ttlDays2 : Int),
      (handleRequest env w l ((setCached (some r) w l d src nowMs nowS ttlDays).2)
          nowMs2 nowS2 ttlDays2).1 =
        some { d with cached := true, source := "cache" }) := by
  obtain ⟨rs, rstore⟩ := r
  simp only at hready
  subst hready
  have hset := setCached_skip_exact_ecdict_only ⟨"ready", rstore⟩ w l d src nowMs nowS ttlDays
    hsrc rfl
  constructor
  · simp [hset]
  · intro env nowMs2 nowS2 ttlDays2
    rw [hset]
    simp [handleRequest, getCached, mapGet_mapSet_self]

/-- Witness for C5: a fallback result written for serendipity and read
back under forced cache fields in an environment with no providers. -/
theorem cache_hit_forced_and_round_trip_witness :
    (setCached (some sampleEmptyR) "serendipity" "en" sampleGoogle "google" 1 1 30).1 = true ∧
    (handleRequest sampleEnv "serendipity" "en"
        ((setCached (some sampleEmptyR) "serendipity" "en" sampleGoogle "google" 1 1 30).2)
        50 50 30).1 =
      some { sampleGoogle with cached := true, source := "cache" } := by
  have h := cache_hit_forced_and_round_trip sampleEmptyR "serendipity" "en" sampleGoogle
    "google" 1 1 30 (by decide) rfl
  exact ⟨h.1, h.2 sampleEnv 50 50 30⟩

/-- C6: for a loaded managed provider whose release timer is armed at
deadline d, if the idle window elapsed with no intervening touch (the
recomputed idle duration reaches the threshold), the timer callback
unregisters the provider from the registry and marks it unloaded;
whereas after a touch that happened later than the arming instant
d - idleReleaseMs, the callback finds the idle duration below threshold,
stays loaded, reschedules to d + idleReleaseMs and leaves the registry
untouched. -/
theorem idle_release_correct
    (s : RuntimeState) (reg : Registry) (d idleMs t : Int)
    (hloaded : s.loaded = true)
    (_harmed : s.releaseTimer = some d) :
    (idleMs ≤ d - s.lastUsedAt →
      onTimerFire s reg d idleMs =
        ({ s with loaded := false, releaseTimer := none },
         (reg.unregister s.descriptor.name).2) ∧
      (∀ p : Provider, reg.get s.descriptor.name = some p →
        ((onTimerFire s reg d idleMs).2).get s.descriptor.name = none)) ∧
    (d - idleMs < t →
      (touch s t idleMs).loaded = true ∧
      (onTimerFire (touch s t idleMs) reg d idleMs).1.loaded = true ∧
      (onTimerFire (touch s t idleMs) reg d idleMs).1.releaseTimer = some (d + idleMs) ∧
      (onTimerFire (touch s t idleMs) reg d idleMs).2 = reg) := by
  constructor
  · intro hidle
    have hnl : ¬ (d - s.lastUsedAt < idleMs) := by omega
    constructor
    · simp [onTimerFire, hloaded, hnl]
    · intro p hp
      simp only [onTimerFire, hloaded, hnl]
      simp [Registry.unregister, Registry.get, hp, mapGet_mapDel_self]
      simp [Registry.get] at hp
      simp [hp, mapGet_mapDel_self]
  · intro htouch
    have hidle2 : d - t < idleMs := by omega
    simp [touch, scheduleRelease, onTimerFire, hloaded, hidle2]

/-- Witness for C6 at the sample loaded provider: eviction at deadline 10
with a 10 ms window, and survival when touched at time 5. -/
theorem idle_release_correct_witness :
    onTimerFire sampleLoadedState sampleRegWithKoen 10 10 =
      ({ sampleLoadedState with loaded := false, releaseTimer := none },
       (sampleRegWithKoen.unregister "koen_mac").2) ∧
    (onTimerFire (touch sampleLoadedState 5 10) sampleRegWithKoen 10 10).1.loaded = true ∧
    (onTimerFire (touch sampleLoadedState 5 10) sampleRegWithKoen 10 10).1.releaseTimer =
      some 20 ∧
    (onTimerFire (touch sampleLoadedState 5 10) sampleRegWithKoen 10 10).2 =
      sampleRegWithKoen := by
  have h := idle_release_correct sampleLoadedState sampleRegWithKoen 10 10 5 rfl rfl
  have h1 := (h.1 (by decide)).1
  have h2 := h.2 (by decide)
  exact ⟨h1, h2.2.1, h2.2.2.1, h2.2.2.2⟩

/-- C7: a load that throws, or that completes with an unavailable
provider (closed on the spot), leaves the managed state unloaded and
the registry without the provider, so the next ensureProvider call with
the lock cleared takes the fresh-load branch; on success the provider
is registered at the descriptor priority, the state is marked loaded
with lastUsedAt stamped to now, and the idle-release timer is armed. -/
theorem lazy_load_failure_atomic
    (s : RuntimeState) (reg : Registry) (now idleMs : Int) :
    (loadProvider s reg none now idleMs = (false, { s with loaded := false }, reg)) ∧
    (loadProvider s reg (some false) now idleMs = (false, { s with loaded := false }, reg)) ∧
    (reg.get s.descriptor.name = none →
      ((loadProvider s reg none now idleMs).2.2).get s.descriptor.name = none ∧
      ((loadProvider s reg (some false) now idleMs).2.2).get s.descriptor.name = none) ∧
    (ensureAction (some { s with loaded := false }) reg false = .startLoad) ∧
    (loadProvider s reg (some true) now idleMs =
      (true,
       { s with loaded := true, lastUsedAt := now, releaseTimer := some (now + idleMs) },
       reg.register ⟨s.descriptor.name, true⟩ s.descriptor.priority)) ∧
    ((reg.register ⟨s.descriptor.name, true⟩ s.descriptor.priority).get s.descriptor.name =
      some ⟨s.descriptor.name, true⟩) := by
  refine ⟨rfl, by simp [loadProvider], ?_, by simp [ensureAction], ?_, ?_⟩
  · intro hnone
    exact ⟨by simpa [loadProvider, Registry.get] using hnone,
           by simpa [loadProvider, Registry.get] using hnone⟩
  · simp [loadProvider, scheduleRelease]
  · simp [Registry.register, Registry.get, mapGet_mapSet_self]

/-- Witness for C7 at the sample descriptor over the empty registry. -/
theorem lazy_load_failure_atomic_witness :
    (loadProvider sampleLoadedState emptyRegistry none 0 10 =
      (false, { sampleLoadedState with loaded := false }, emptyRegistry)) ∧
    ((loadProvider sampleLoadedState emptyRegistry none 0 10).2.2).get "koen_mac" = none ∧
    ensureAction (some { sampleLoadedState with loaded := false }) emptyRegistry false =
      .startLoad ∧
    loadProvider sampleLoadedState emptyRegistry (some true) 0 10 =
      (true,
       { sampleLoadedState with loaded := true, lastUsedAt := 0, releaseTimer := some 10 },
       emptyRegistry.register ⟨"koen_mac", true⟩ 5) := by
  have h := lazy_load_failure_atomic sampleLoadedState emptyRegistry 0 10
  exact ⟨h.1, (h.2.2.1 rfl).1, h.2.2.2.1, h.2.2.2.2.1⟩

/-- Counterexample to C8: registering two providers under the same name
leaves two entries for that name in the priority enumeration; the
by-name Map is overwritten but priorityOrder.push never removes the
earlier entry, so getAll() does not contain exactly one entry for the
name. -/
theorem registry_duplicate_name_counterexample :
    (((emptyRegistry.register ⟨"x", true⟩ 5).register ⟨"x", true⟩ 3).getAll.filter
        (fun p => p.name = "x")).length = 2 ∧
    ¬ ((((emptyRegistry.register ⟨"x", true⟩ 5).register ⟨"x", true⟩ 3).getAll.filter
        (fun p => p.name = "x")).length = 1) := by
  have h : (((emptyRegistry.register ⟨"x", true⟩ 5).register ⟨"x", true⟩ 3).getAll.filter
      (fun p => p.name = "x")).length = 2 := by
    simp [Registry.register, Registry.getAll, emptyRegistry, mapSet, List.mergeSort,
      byPriorityDesc]
  exact ⟨h, by omega⟩

/-- C8 amended: register overwrites the by-name mapping, so get returns
the newest provider under a name, and the snapshots getAll and
getAvailable are stable-sorted by descending priority with getAvailable
filtered by availability; but register appends to the priority list
without removing an earlier entry of the same name, so the enumeration
grows by one on every registration and can hold several entries for one
name. -/
theorem registry_register_semantics_amended :
    (∀ (reg : Registry) (p : Provider) (priority : Int),
      (reg.register p priority).get p.name = some p) ∧
    (∀ (reg : Registry) (p : Provider) (priority : Int),
      (reg.register p priority).priorityOrder.length = reg.priorityOrder.length + 1) ∧
    (∀ (reg : Registry) (p : Provider) (priority : Int),
      List.Pairwise (fun a b : Provider × Int => b.2 ≤ a.2)
        (reg.register p priority).priorityOrder) ∧
    (∀ reg : Registry, reg.getAvailable = reg.getAll.filter (fun p => p.available)) ∧
    (((emptyRegistry.register ⟨"a", true⟩ 1).register ⟨"b", false⟩ 1).getAll =
      [⟨"a", true⟩, ⟨"b", false⟩]) := by
  refine ⟨?_, ?_, ?_, ?_, ?_⟩
  · intro reg p priority
    simp [Registry.register, Registry.get, mapGet_mapSet_self]
  · intro reg p priority
    simp [Registry.register, List.length_mergeSort]
  · intro reg p priority
    have h := @List.sorted_mergeSort (Provider × Int) byPriorityDesc
      (fun a b c hab hbc => by
        simp only [byPriorityDesc, decide_eq_true_eq] at hab hbc ⊢
        omega)
      (fun a b => by
        simp only [byPriorityDesc, Bool.or_eq_true, decide_eq_true_eq]
        omega)
      (reg.priorityOrder ++ [(p, priority)])
    refine h.imp ?_
    intro a b hab
    simpa [byPriorityDesc, decide_eq_true_eq] using hab
  · intro reg
    simp only [Registry.getAvailable, Registry.getAll, List.filter_map]
    rfl
  · simp [Registry.register, Registry.getAll, emptyRegistry, mapSet, List.mergeSort,
      byPriorityDesc]

/-- Witness for C8 amended, instantiating the overwrite and growth parts
at a concrete same-name double registration. -/
theorem registry_register_semantics_amended_witness :
    ((emptyRegistry.register ⟨"x", true⟩ 5).register ⟨"x", true⟩ 3).get "x" =
      some ⟨"x", true⟩ ∧
    ((emptyRegistry.register ⟨"x", true⟩ 5).register ⟨"x", true⟩ 3).priorityOrder.length =
      (emptyRegistry.register ⟨"x", true⟩ 5).priorityOrder.length + 1 := by
  exact ⟨registry_register_semantics_amended.1 (emptyRegistry.register ⟨"x", true⟩ 5)
           ⟨"x", true⟩ 3,
         registry_register_semantics_amended.2.1 (emptyRegistry.register ⟨"x", true⟩ 5)
           ⟨"x", true⟩ 3⟩

/-- C2: in every reachable state of the per-name load coordination, at
most one load construction is in flight (started loads exceed settled
ones by at most one); the lock marker is held exactly while that single
load is in flight and names it (the latest started, not yet settled
load), so a caller arriving while it is in flight joins precisely that
load; everything awaited is a started load whose outcome the caller
observes; and from any state holding the marker, the settling
transition, with either outcome, removes the marker. -/
theorem single_flight_lock_discipline (s : FlightState) (h : FlightReachable s) :
    (s.started ≤ s.settledCount + 1) ∧
    (∀ l : Nat, s.lock = some l → s.started = s.settledCount + 1 ∧ l + 1 = s.started) ∧
    (s.lock = none → s.started = s.settledCount) ∧
    (∀ p ∈ s.awaits, p.2 < s.started) ∧
    (∀ (l caller : Nat), s.lock = some l →
      SFStep s { s with awaits := (caller, l) :: s.awaits }) ∧
    (∀ (l : Nat) (ok : Bool), s.lock = some l →
      SFStep s { s with lock := none, settledCount := s.settledCount + 1 }) := by
  have join_any : ∀ (t : FlightState) (l caller : Nat), t.lock = some l →
      SFStep t { t with awaits := (caller, l) :: t.awaits } :=
    fun t l c hh => SFStep.join t c l hh
  have settle_any : ∀ (t : FlightState) (l : Nat) (ok : Bool), t.lock = some l →
      SFStep t { t with lock := none, settledCount := t.settledCount + 1 } :=
    fun t l okb hh => SFStep.settle t l okb hh
  have key : (s.started ≤ s.settledCount + 1) ∧
      (∀ l : Nat, s.lock = some l → s.started = s.settledCount + 1 ∧ l + 1 = s.started) ∧
      (s.lock = none → s.started = s.settledCount) ∧
      (∀ p ∈ s.awaits, p.2 < s.started) := by
    induction h with
    | refl =>
      refine ⟨?_, ?_, ?_, ?_⟩ <;> simp [initialFlight]
    | tail hr hstep ih =>
      obtain ⟨ih1, ih2, ih3, ih4⟩ := ih
      cases hstep with
      | reuse =>
        exact ⟨ih1, ih2, ih3, ih4⟩
      | join caller loadId hl =>
        obtain ⟨he, hid⟩ := ih2 loadId hl
        refine ⟨ih1, ?_, ?_, ?_⟩
        · intro l hll
          rw [hl] at hll
          injection hll with hh
          subst hh
          exact ⟨he, hid⟩
        · intro hnone
          simp only at hnone
          rw [hl] at hnone
          cases hnone
        · intro p hp
          simp only [List.mem_cons] at hp
          rcases hp with hp | hp
          · subst hp
            simp only
            omega
          · simpa using ih4 p hp
      | start caller hl =>
        have he := ih3 hl
        refine ⟨?_, ?_, ?_, ?_⟩
        · simp only
          omega
        · intro l hll
          simp only [Option.some.injEq] at hll
          refine ⟨?_, ?_⟩ <;> (simp only; omega)
        · intro hnone
          simp at hnone
        · intro p hp
          simp only [List.mem_cons] at hp
          rcases hp with hp | hp
          · subst hp
            simp only
            omega
          · have := ih4 p hp
            simp only
            omega
      | settle loadId ok hl =>
        obtain ⟨he, hid⟩ := ih2 loadId hl
        refine ⟨?_, ?_, ?_, ?_⟩
        · simp only
          omega
        · intro l hll
          simp at hll
        · intro _
          simp only
          omega
        · intro p hp
          simpa using ih4 p (by simpa using hp)
  exact ⟨key.1, key.2.1, key.2.2.1, key.2.2.2, join_any s, settle_any s⟩

/-- Witness for C2 at the state reached after the first ensureProvider
call starts the initial load. -/
theorem single_flight_lock_discipline_witness :
    FlightReachable flightAfterStart ∧
    flightAfterStart.started ≤ flightAfterStart.settledCount + 1 ∧
    flightAfterStart.started = flightAfterStart.settledCount + 1 := by
  have hreach : FlightReachable flightAfterStart :=
    Relation.ReflTransGen.single (SFStep.start initialFlight 0 rfl)
  have h := single_flight_lock_discipline flightAfterStart hreach
  exact ⟨hreach, h.1, (h.2.1 0 rfl).1⟩
